import Mathlib

/-!
Verification of the android-devkit ADB core.

Shallow embedding of the core logic of the `android-devkit` repository:

* `packages/adb/src/logcat.ts` — logcat line parser, stream engine
  (partial-line buffering, level filtering);
* `packages/adb/src/client.ts` — command executor (`AdbClient.exec`)
  modelled as an event-driven state machine;
* the device listing parser (`parseDeviceLine`, `getDevices`);
* the extension's `LogcatTreeProvider.addEntry` (filter pipeline and
  bounded entry buffer) and `AdbService.getDevices` (property resolution
  with graceful degradation).

Strings are modelled as `List Char`.  JavaScript `string.split("\n")` is
`List.splitOn '\n'`; JS regex character classes `\s`, `\d`, `.` are
modelled on the character set that can actually occur here (ASCII);
JS `parseInt(s, 10)` is `parseIntJs`; `Array.prototype.includes` on
strings is `containsSub`.
-/

namespace AndroidDevkit

/-- Convert a Lean string literal to the `List Char` model. -/
def str (s : String) : List Char := s.toList

/-- JS `\s` (whitespace class) restricted to the ASCII range, which is the
only range occurring in ADB output: space, tab, line feed, vertical tab,
form feed, carriage return.  Also the character class of JS
`String.prototype.trim`. -/
def isWsJs (c : Char) : Bool :=
  c = ' ' || c = '\t' || c = '\n' || c = '\x0b' || c = '\x0c' || c = '\r'

/-- JS `\d`: exactly the ASCII digits. -/
def isDigitJs (c : Char) : Bool := '0' ≤ c && c ≤ '9'

/-- JS `String.prototype.trim`: strip leading and trailing whitespace. -/
def trimJs (l : List Char) : List Char :=
  ((l.dropWhile isWsJs).reverse.dropWhile isWsJs).reverse

/-- Numeric value of a list of ASCII digits, most significant first. -/
def digitsToNat (l : List Char) : Nat :=
  l.foldl (fun acc c => acc * 10 + (c.toNat - '0'.toNat)) 0

/-- JS `parseInt(s, 10)` on an already-trimmed string: optional sign, then
the maximal leading digit run; `none` models the `NaN` result when no
leading digit exists.  (Trailing garbage is ignored, as `parseInt` does.) -/
def parseIntJs (l : List Char) : Option Int :=
  let l := l.dropWhile isWsJs
  let (sign, rest) : Int × List Char :=
    match l with
    | '-' :: r => (-1, r)
    | '+' :: r => (1, r)
    | r => (1, r)
  let digits := rest.takeWhile isDigitJs
  if digits.isEmpty then none
  else some (sign * (digitsToNat digits : Int))

/-- JS `String.prototype.includes`: `containsSub hay needle` is true iff
`needle` occurs contiguously inside `hay` (the empty needle always does). -/
def containsSub (hay needle : List Char) : Bool :=
  if needle.isPrefixOf hay then true
  else
    match hay with
    | [] => false
    | _ :: t => containsSub t needle

/-- JS `String.prototype.toLowerCase` (ASCII range). -/
def toLowerStr (l : List Char) : List Char := l.map Char.toLower

/-- `LogLevel` from `packages/adb/src/types.ts`. -/
inductive LogLevel
  | V | D | I | W | E | F | S
deriving DecidableEq, Repr

/-- `LOG_LEVEL_PRIORITY` from `packages/adb/src/logcat.ts` (higher = more
severe); identical to the index in the `levels` array of
`LogcatTreeProvider.addEntry`. -/
def LOG_LEVEL_PRIORITY : LogLevel → Nat
  | .V => 0
  | .D => 1
  | .I => 2
  | .W => 3
  | .E => 4
  | .F => 5
  | .S => 6

/-- A parsed logcat entry (`LogcatEntry` in `types.ts`).  The source stores
`timestamp : Date` built from the captured date/time strings and the
wall-clock year; the embedding keeps the captured `date` and `time`
strings themselves (the `Date` construction adds only the ambient year). -/
structure LogcatEntry where
  date : List Char
  time : List Char
  pid : Nat
  tid : Nat
  level : LogLevel
  tag : List Char
  message : List Char
deriving DecidableEq, Repr

/-- Decode one of the seven level codes. -/
def charToLevel (c : Char) : Option LogLevel :=
  if c = 'V' then some .V
  else if c = 'D' then some .D
  else if c = 'I' then some .I
  else if c = 'W' then some .W
  else if c = 'E' then some .E
  else if c = 'F' then some .F
  else if c = 'S' then some .S
  else none

/-- Take exactly `n` characters satisfying `p`, or fail. -/
def takeExact (p : Char → Bool) : Nat → List Char → Option (List Char × List Char)
  | 0, l => some ([], l)
  | _ + 1, [] => none
  | n + 1, c :: l =>
    if p c then
      match takeExact p n l with
      | some (taken, rest) => some (c :: taken, rest)
      | none => none
    else none

/-- Consume one fixed character, or fail. -/
def expectChar (c : Char) : List Char → Option (List Char)
  | [] => none
  | d :: l => if d = c then some l else none

/-- Consume a maximal nonempty run of characters satisfying `p`
(regex `p+` followed by something `p` cannot match), or fail. -/
def takeSome (p : Char → Bool) (l : List Char) : Option (List Char × List Char) :=
  let taken := l.takeWhile p
  if taken.isEmpty then none else some (taken, l.dropWhile p)

/-- Date group of the regex: fragment `(\d{2}-\d{2})`, returning the
captured five characters and the remaining input. -/
def parseDatePart (l : List Char) : Option (List Char × List Char) :=
  (takeExact isDigitJs 2 l).bind fun (d1, l1) =>
  (expectChar '-' l1).bind fun l2 =>
  (takeExact isDigitJs 2 l2).map fun (d2, l3) => (d1 ++ '-' :: d2, l3)

/-- Time group of the regex: fragment `(\d{2}:\d{2}:\d{2}\.\d{3})`. -/
def parseTimePart (l : List Char) : Option (List Char × List Char) :=
  (takeExact isDigitJs 2 l).bind fun (h, l1) =>
  (expectChar ':' l1).bind fun l2 =>
  (takeExact isDigitJs 2 l2).bind fun (m, l3) =>
  (expectChar ':' l3).bind fun l4 =>
  (takeExact isDigitJs 2 l4).bind fun (s, l5) =>
  (expectChar '.' l5).bind fun l6 =>
  (takeExact isDigitJs 3 l6).map fun (ms, l7) =>
    (h ++ ':' :: m ++ ':' :: s ++ '.' :: ms, l7)

/-- The tail of the logcat regex after the level code:
`\s+([^:]+?)\s*:\s*(.*)$`.

Semantics of that fragment: the region before the first `:` must start
with whitespace and must decompose as `\s+` (nonempty), `[^:]+?`
(nonempty), `\s*`; such a decomposition exists iff the region has length
at least 2 and starts with a whitespace character.  The lazy `[^:]+?`
combined with the greedy `\s+`/`\s*` captures the region minus its
maximal whitespace prefix and minus trailing whitespace — except when the
region is all whitespace, where the capture is its final whitespace
character.  The source then applies `.trim()` to the capture, so in every
case the resulting tag equals `trimJs` of the pre-colon region.  `(.*)$`
then requires the remainder (after the greedy `\s*` eats post-colon
whitespace) to contain no line terminator. -/
def parseTagMessage (rest : List Char) : Option (List Char × List Char) :=
  let pre := rest.takeWhile (fun c => c ≠ ':')
  match (rest.dropWhile (fun c => c ≠ ':')) with
  | [] => none
  | _ :: post =>
    match pre with
    | [] => none
    | c0 :: pre' =>
      if isWsJs c0 && !pre'.isEmpty then
        let message := post.dropWhile isWsJs
        if message.all (fun c => c ≠ '\n' && c ≠ '\r') then
          some (trimJs pre, message)
        else none
      else none

/-- `parseLogcatLine` from `packages/adb/src/logcat.ts`: match the regex
`^(\d{2}-\d{2})\s+(\d{2}:\d{2}:\d{2}\.\d{3})\s+(\d+)\s+(\d+)\s+([VDIWEFS])\s+([^:]+?)\s*:\s*(.*)$`
and build a `LogcatEntry`; `none` models the `null` return on mismatch.
Each `\s+`/`\d+` is a greedy run followed by a character the class cannot
match, so maximal-run consumption is exact. -/
def parseLogcatLine (line : List Char) : Option LogcatEntry :=
  (parseDatePart line).bind fun (date, l1) =>
  (takeSome isWsJs l1).bind fun (_, l2) =>
  (parseTimePart l2).bind fun (time, l3) =>
  (takeSome isWsJs l3).bind fun (_, l4) =>
  (takeSome isDigitJs l4).bind fun (pid, l5) =>
  (takeSome isWsJs l5).bind fun (_, l6) =>
  (takeSome isDigitJs l6).bind fun (tid, l7) =>
  (takeSome isWsJs l7).bind fun (_, l8) =>
  match l8 with
  | [] => none
  | c :: l9 =>
    (charToLevel c).bind fun level =>
    (parseTagMessage l9).map fun (tag, message) =>
      { date := date, time := time,
        pid := digitsToNat pid, tid := digitsToNat tid,
        level := level, tag := tag, message := message }

/-- Level filter of `LogcatStream.shouldEmit`: reject when the entry's
priority is below the configured minimum. -/
def shouldEmit (minLevel : LogLevel) (e : LogcatEntry) : Bool :=
  !(LOG_LEVEL_PRIORITY e.level < LOG_LEVEL_PRIORITY minLevel)

/-- JS `s.split("\n")` (splits on every line feed; always nonempty). -/
def splitNl (l : List Char) : List (List Char) := l.splitOn '\n'

/-- The complete lines produced by one `handleData` call: everything but
the last component of the split of `buffer ++ data` (`lines.pop()`). -/
def completeLines (buffer data : List Char) : List (List Char) :=
  (splitNl (buffer ++ data)).dropLast

/-- The partial-line buffer left behind by one `handleData` call: the last
component of the split (`this.buffer = lines.pop() ?? ""`). -/
def nextBuffer (buffer data : List Char) : List Char :=
  (splitNl (buffer ++ data)).getLastD []

/-- The per-line loop body of `LogcatStream.handleData`, mapped over the
complete lines: skip lines that are empty after trimming, parse, apply the
level filter, and emit the surviving entries in order. -/
def emitLines (minLevel : LogLevel) (lines : List (List Char)) : List LogcatEntry :=
  lines.filterMap fun line =>
    if (trimJs line).isEmpty then none
    else
      match parseLogcatLine line with
      | none => none
      | some e => if shouldEmit minLevel e then some e else none

/-- `LogcatStream.handleData`, as a pure transition: from the current
partial-line buffer and one incoming chunk to the new buffer and the list
of entries emitted for this chunk. -/
def handleData (minLevel : LogLevel) (buffer data : List Char) :
    List Char × List LogcatEntry :=
  (nextBuffer buffer data, emitLines minLevel (completeLines buffer data))

/-- Feed a sequence of chunks through `handleData` in arrival order,
accumulating the emitted entries. -/
def feedChunks (minLevel : LogLevel) (buffer : List Char) :
    List (List Char) → List Char × List LogcatEntry
  | [] => (buffer, [])
  | c :: cs =>
    let p := handleData minLevel buffer c
    let q := feedChunks minLevel p.1 cs
    (q.1, p.2 ++ q.2)

/-- The fields of `LogcatStream` that the lifecycle claims touch:
`process !== null` is `running`, plus the partial-line buffer and the
constructor-initialised filter configuration. -/
structure LogcatStream where
  running : Bool
  buffer : List Char
  minLevel : LogLevel
  tags : List (List Char)
deriving DecidableEq, Repr

/-- The `LogcatStream` constructor: not running, empty buffer, defaults
`minLevel = "V"` and `tags = []` when the options omit them. -/
def LogcatStream.create (minLevel : Option LogLevel)
    (tags : Option (List (List Char))) : LogcatStream :=
  { running := false, buffer := [],
    minLevel := minLevel.getD .V, tags := tags.getD [] }

/-- `LogcatStream.start`: throws `"Logcat stream already running"` when a
process exists, otherwise spawns and transitions to running.  No field
other than `process` is assigned. -/
def LogcatStream.start (s : LogcatStream) : Except String LogcatStream :=
  if s.running then .error "Logcat stream already running"
  else .ok { s with running := true }

/-- `LogcatStream.stop`: if running, kill the subprocess and null the
handle; otherwise a no-op.  No field other than `process` is assigned. -/
def LogcatStream.stop (s : LogcatStream) : LogcatStream :=
  if s.running then { s with running := false } else s

/-- The stream-level view of a `data` callback: run `handleData` on the
instance's buffer field. -/
def LogcatStream.feed (s : LogcatStream) (data : List Char) :
    LogcatStream × List LogcatEntry :=
  let r := handleData s.minLevel s.buffer data
  ({ s with buffer := r.1 }, r.2)

/-!
The extension side: `LogcatTreeProvider` from
`packages/extension/src/views/logcat.ts` — the filter pipeline and the
bounded entry buffer of `addEntry`.
-/

/-- The state of `LogcatTreeProvider` used by `addEntry`: the retained
entries, the capacity (`logcat.maxLines`), the optional text filter and
the minimum level. -/
structure ProviderState where
  entries : List LogcatEntry
  maxEntries : Nat
  filter : Option (List Char)
  minLevel : LogLevel
deriving DecidableEq, Repr

/-- The buffer step of `addEntry`: `push` then, if the length now exceeds
the capacity, `shift()` (drop the single oldest element). -/
def pushBounded (maxEntries : Nat) (entries : List LogcatEntry)
    (e : LogcatEntry) : List LogcatEntry :=
  let pushed := entries ++ [e]
  if pushed.length > maxEntries then pushed.tail else pushed

/-- The text filter of `addEntry`.  `if (this.filter)` is JS truthiness:
an absent filter and the empty string both skip the check; otherwise the
entry passes iff the lowercase tag or the lowercase message contains the
lowercase filter string. -/
def textFilterAccepts (filter : Option (List Char)) (e : LogcatEntry) : Bool :=
  match filter with
  | none => true
  | some f =>
    if f.isEmpty then true
    else
      containsSub (toLowerStr e.tag) (toLowerStr f) ||
      containsSub (toLowerStr e.message) (toLowerStr f)

/-- `LogcatTreeProvider.addEntry`: return unchanged (drop the entry) when
the level index is below the minimum or the text filter rejects;
otherwise push into the bounded buffer.  (`levels.indexOf` on the array
`["V","D","I","W","E","F","S"]` is exactly `LOG_LEVEL_PRIORITY`.) -/
def addEntry (st : ProviderState) (e : LogcatEntry) : ProviderState :=
  if LOG_LEVEL_PRIORITY e.level < LOG_LEVEL_PRIORITY st.minLevel then st
  else if !textFilterAccepts st.filter e then st
  else { st with entries := pushBounded st.maxEntries st.entries e }

/-!
Device listing: `parseDeviceLine` and `getDevices` from the adb
package's device module.
-/

/-- `Device` from `types.ts`.  The source casts the second token with
`as DeviceState` without any check, so the embedding keeps the raw
string. -/
structure Device where
  serial : List Char
  state : List Char
  model : Option (List Char)
  product : Option (List Char)
  device : Option (List Char)
  transportId : Option (List Char)
  isEmulator : Bool
deriving DecidableEq, Repr

/-- `line.trim().split(/\s+/)`: the whitespace-separated tokens.  For a
trimmed nonempty string this is the split on whitespace runs with no
empty components; for an all-whitespace line JS yields `[""]` where this
yields `[]` — both have fewer than two tokens, so `parseDeviceLine`
returns null either way. -/
def splitWsTokens (l : List Char) : List (List Char) :=
  (List.splitOnP isWsJs (trimJs l)).filter fun t => !t.isEmpty

/-- One `key:value` token: `const [key, value] = parts[i].split(":")`
takes the first two components of the colon split and keeps the pair only
when both are truthy (nonempty). -/
def propOfToken (tok : List Char) : Option (List Char × List Char) :=
  match tok.splitOn ':' with
  | key :: value :: _ =>
    if !key.isEmpty && !value.isEmpty then some (key, value) else none
  | _ => none

/-- The `props` record built from the tokens after serial and state;
assignment into a JS record means the last binding of a key wins. -/
def propsOf (rest : List (List Char)) : List (List Char × List Char) :=
  rest.filterMap propOfToken

/-- Record lookup with last-binding-wins semantics. -/
def getProp (props : List (List Char × List Char)) (key : List Char) :
    Option (List Char) :=
  ((props.filter fun p => p.1 == key).getLast?).map fun p => p.2

/-- `parseDeviceLine`: trim and split on whitespace; fewer than two tokens
is null; first token is the serial, second the state (verbatim, unchecked
cast); remaining tokens feed the `props` record; `isEmulator` iff the
serial starts with `"emulator-"` or contains `":5555"`. -/
def parseDeviceLine (line : List Char) : Option Device :=
  match splitWsTokens line with
  | serial :: state :: rest =>
    let props := propsOf rest
    some { serial := serial, state := state,
           model := getProp props (str "model"),
           product := getProp props (str "product"),
           device := getProp props (str "device"),
           transportId := getProp props (str "transport_id"),
           isEmulator := (str "emulator-").isPrefixOf serial ||
                         containsSub serial (str ":5555") }
  | _ => none

/-- The parsing part of `getDevices`: split stdout into lines, skip the
header line and lines blank after trimming, parse the rest and keep the
non-null results. -/
def parseDevicesOutput (stdout : List Char) : List Device :=
  (splitNl stdout).filterMap fun line =>
    if (str "List of devices").isPrefixOf line || (trimJs line).isEmpty then none
    else parseDeviceLine line

/-!
Property resolution: `AdbService.getDevices` from
`apps/extension/src/services/adb.ts`, with `getApiLevel` and
`getAndroidVersion` from the adb package.
-/

/-- `DeviceInfo`: a `Device` plus resolved name, API level and version.
`apiLevel` is `Option Int`: `none` models the JS `NaN` that
`parseInt` produces on non-numeric input. -/
structure DeviceInfo extends Device where
  name : List Char
  apiLevel : Option Int
  androidVersion : List Char
deriving DecidableEq, Repr

/-- The outcome of the three property/version queries issued for a ready
device, as seen by `AdbService.getDevices`: `getDeviceName` resolves to a
name or rejects; the two `getprop` shell commands resolve with their
stdout or reject (spawn error or timeout). -/
structure PropQueries where
  nameRes : Except Unit (List Char)
  apiStdout : Except Unit (List Char)
  versionStdout : Except Unit (List Char)
deriving Repr

/-- `getApiLevel`: `parseInt(result.stdout.trim(), 10)`; `none` is `NaN`. -/
def getApiLevelOf (stdout : List Char) : Option Int :=
  parseIntJs (trimJs stdout)

/-- `getAndroidVersion`: `result.stdout.trim()`. -/
def getAndroidVersionOf (stdout : List Char) : List Char :=
  trimJs stdout

/-- The fallback `DeviceInfo` pushed for a non-ready device and in the
`catch` branch: `name = model ?? serial`, `apiLevel = 0`,
`androidVersion = "Unknown"`. -/
def basicInfo (d : Device) : DeviceInfo :=
  { toDevice := d, name := d.model.getD d.serial,
    apiLevel := some 0, androidVersion := str "Unknown" }

/-- One iteration of the `AdbService.getDevices` loop.  A device whose
state is not `"device"` takes the fallback immediately (`continue` before
any query).  A ready device awaits the three queries; if any rejects the
`catch` branch takes the same fallback, otherwise the resolved values are
used, `apiLevel` coming from `parseInt` on the trimmed stdout. -/
def resolveDeviceInfo (d : Device) (q : PropQueries) : DeviceInfo :=
  if d.state ≠ str "device" then basicInfo d
  else
    match q.nameRes, q.apiStdout, q.versionStdout with
    | .ok n, .ok sApi, .ok sVer =>
      { toDevice := d, name := n,
        apiLevel := getApiLevelOf sApi,
        androidVersion := getAndroidVersionOf sVer }
    | _, _, _ => basicInfo d

/-!
Command executor: `AdbClient.exec` from `packages/adb/src/client.ts`,
modelled as a state machine over the events its callbacks receive.  The
promise's first settlement wins (`settleFirst`); the `killed` flag set by
the timeout callback guards the `close` handler's `resolve`.
-/

/-- `AdbResult` from `types.ts`. -/
structure AdbResult where
  exitCode : Int
  stdout : List Char
  stderr : List Char
deriving DecidableEq, Repr

/-- How the promise returned by `exec` has settled. -/
inductive ExecOutcome
  | pending
  | resolved (r : AdbResult)
  | rejectedTimeout
  | rejectedSpawnError
deriving DecidableEq, Repr

/-- A promise settles once: later `resolve`/`reject` calls are no-ops. -/
def settleFirst (o later : ExecOutcome) : ExecOutcome :=
  match o with
  | .pending => later
  | _ => o

/-- The mutable state of one `exec` call: the accumulated `stdout` and
`stderr` strings, the `killed` flag, whether a kill signal has been sent
to the subprocess, whether the watchdog timer is still armed
(`clearTimeout` disarms it; firing is one-shot), and the promise. -/
structure ExecState where
  stdoutBuf : List Char
  stderrBuf : List Char
  killed : Bool
  killSent : Bool
  timerActive : Bool
  outcome : ExecOutcome
deriving DecidableEq, Repr

/-- The events `exec`'s callbacks can receive, in some arrival order:
stdout/stderr `data`, the process `close` (with nullable exit code), the
process `error`, and the watchdog timer firing. -/
inductive ExecEvent
  | stdoutData (s : List Char)
  | stderrData (s : List Char)
  | closed (code : Option Int)
  | spawnError
  | timerFired
deriving DecidableEq, Repr

/-- Events that only accumulate output. -/
def ExecEvent.isData : ExecEvent → Bool
  | .stdoutData _ => true
  | .stderrData _ => true
  | _ => false

/-- The state at the start of an `exec` call: empty buffers, not killed,
timer armed, promise pending. -/
def initExec : ExecState :=
  { stdoutBuf := [], stderrBuf := [], killed := false, killSent := false,
    timerActive := true, outcome := .pending }

/-- One callback of `exec`.  `timerFired` (only possible while the timer
is armed): set `killed`, send SIGTERM, reject with the timeout error.
`closed`: clear the timer and, unless `killed`, resolve with
`exitCode = code ?? 0` and the collected output.  `spawnError`: clear the
timer and reject.  Data events append to the buffers. -/
def execStep (st : ExecState) (e : ExecEvent) : ExecState :=
  match e with
  | .stdoutData s => { st with stdoutBuf := st.stdoutBuf ++ s }
  | .stderrData s => { st with stderrBuf := st.stderrBuf ++ s }
  | .closed code =>
    { st with
      timerActive := false,
      outcome :=
        if st.killed then st.outcome
        else settleFirst st.outcome (.resolved
          { exitCode := code.getD 0,
            stdout := st.stdoutBuf, stderr := st.stderrBuf }) }
  | .spawnError =>
    { st with
      timerActive := false,
      outcome := settleFirst st.outcome .rejectedSpawnError }
  | .timerFired =>
    if st.timerActive then
      { st with
        killed := true, killSent := true, timerActive := false,
        outcome := settleFirst st.outcome .rejectedTimeout }
    else st

/-- Run one `exec` call over an arrival order of events. -/
def runExec (events : List ExecEvent) : ExecState :=
  events.foldl execStep initExec

/-- A concrete entry used by witnesses, distinguished by its pid. -/
def sampleEntry (pid : Nat) : LogcatEntry :=
  { date := str "01-10", time := str "12:34:56.789", pid := pid, tid := 0,
    level := .I, tag := str "Tag", message := str "msg" }

/-- Modelled from the spec (C6): the spec-side retention predicate — an
entry is retained iff its level is at least the configured minimum on the
ordered level scale, and either no text filter is configured or the
lowercase tag or lowercase message contains the lowercase filter
substring.  Compared below against the code-side `addEntry`. -/
def specAccepts (st : ProviderState) (e : LogcatEntry) : Prop :=
  LOG_LEVEL_PRIORITY st.minLevel ≤ LOG_LEVEL_PRIORITY e.level ∧
  ∀ f ∈ st.filter,
    (containsSub (toLowerStr e.tag) (toLowerStr f) = true ∨
     containsSub (toLowerStr e.message) (toLowerStr f) = true)

/-- Well-formedness of a decomposition of a threadtime line
`MM-DD HH:MM:SS.mmm PID TID LEVEL TAG: MESSAGE`: digit groups of the
right widths, nonempty whitespace separators, a level code, a nonempty
colon-free tag that neither starts nor ends with whitespace, optional
whitespace around the separating colon, and a message that does not start
with whitespace and contains no line terminator. -/
def threadtimeWf (mo dy hh mi ss ms pid tid w1 w2 w3 w4 w5 wA wB : List Char)
    (lvlc : Char) (lvl : LogLevel) (tag msg : List Char) : Prop :=
  mo.length = 2 ∧ mo.all isDigitJs = true ∧
  dy.length = 2 ∧ dy.all isDigitJs = true ∧
  hh.length = 2 ∧ hh.all isDigitJs = true ∧
  mi.length = 2 ∧ mi.all isDigitJs = true ∧
  ss.length = 2 ∧ ss.all isDigitJs = true ∧
  ms.length = 3 ∧ ms.all isDigitJs = true ∧
  pid ≠ [] ∧ pid.all isDigitJs = true ∧
  tid ≠ [] ∧ tid.all isDigitJs = true ∧
  w1 ≠ [] ∧ w1.all isWsJs = true ∧
  w2 ≠ [] ∧ w2.all isWsJs = true ∧
  w3 ≠ [] ∧ w3.all isWsJs = true ∧
  w4 ≠ [] ∧ w4.all isWsJs = true ∧
  w5 ≠ [] ∧ w5.all isWsJs = true ∧
  wA.all isWsJs = true ∧ wB.all isWsJs = true ∧
  charToLevel lvlc = some lvl ∧
  tag ≠ [] ∧ tag.all (fun c => c ≠ ':') = true ∧
  isWsJs tag.headI = false ∧ isWsJs (tag.getLastD 'x') = false ∧
  (msg = [] ∨ isWsJs msg.headI = false) ∧
  msg.all (fun c => c ≠ '\n' && c ≠ '\r') = true

/-- The line assembled from a threadtime decomposition. -/
def threadtimeLine (mo dy hh mi ss ms pid tid w1 w2 w3 w4 w5 wA wB : List Char)
    (lvlc : Char) (tag msg : List Char) : List Char :=
  mo ++ '-' :: (dy ++ (w1 ++ (hh ++ ':' :: (mi ++ ':' :: (ss ++ '.' :: (ms ++
    (w2 ++ (pid ++ (w3 ++ (tid ++ (w4 ++ lvlc ::
      (w5 ++ (tag ++ (wA ++ ':' :: (wB ++ msg)))))))))))))))

/-- The entry a threadtime decomposition denotes. -/
def threadtimeEntry (mo dy hh mi ss ms pid tid : List Char)
    (lvl : LogLevel) (tag msg : List Char) : LogcatEntry :=
  { date := mo ++ '-' :: dy,
    time := hh ++ ':' :: mi ++ ':' :: ss ++ '.' :: ms,
    pid := digitsToNat pid, tid := digitsToNat tid,
    level := lvl, tag := tag, message := msg }

/-!
Helper lemmas on lists, then the claim theorems.
-/

theorem getLastD_irrel {α : Type} {m : List α} (h : m ≠ []) (d d' : α) :
    m.getLastD d = m.getLastD d' := by
  cases m with
  | nil => exact absurd rfl h
  | cons a l => rw [List.getLastD_cons, List.getLastD_cons]

theorem getLastD_append {α : Type} (l m : List α) (h : m ≠ []) (d : α) :
    (l ++ m).getLastD d = m.getLastD d := by
  induction l generalizing d with
  | nil => rfl
  | cons a l ih =>
    have : (a :: (l ++ m)).getLastD d = (l ++ m).getLastD a :=
      List.getLastD_cons d a (l ++ m)
    rw [List.cons_append, this, ih a]
    exact getLastD_irrel h a d

theorem splitOnP_append {α : Type} [BEq α] (p : α → Bool) (a b : List α) :
    List.splitOnP p (a ++ b) =
      (List.splitOnP p a).dropLast ++
        List.modifyHead (fun h => (List.splitOnP p a).getLastD [] ++ h)
          (List.splitOnP p b) := by
  induction a with
  | nil =>
    obtain ⟨h, t, hb⟩ := List.exists_cons_of_ne_nil (List.splitOnP_ne_nil p b)
    simp [hb, List.modifyHead_cons]
  | cons c a ih =>
    obtain ⟨h, t, ha⟩ := List.exists_cons_of_ne_nil (List.splitOnP_ne_nil p a)
    by_cases hc : p c
    · simp only [List.cons_append, List.splitOnP_cons, hc, if_pos, ih, ha]
      cases t with
      | nil => simp [List.getLastD_cons]
      | cons y t' => simp [List.getLastD_cons, List.dropLast_cons₂]
    · simp only [List.cons_append, List.splitOnP_cons, hc, if_neg, ih, ha,
        Bool.false_eq_true, if_false]
      cases t with
      | nil =>
        obtain ⟨hb, tb, hbeq⟩ := List.exists_cons_of_ne_nil (List.splitOnP_ne_nil p b)
        simp [hbeq, List.modifyHead_cons, List.getLastD_cons]
      | cons y t' =>
        simp [List.modifyHead_cons, List.getLastD_cons, List.dropLast_cons₂]

theorem splitNl_append (a b : List Char) :
    splitNl (a ++ b) =
      (splitNl a).dropLast ++
        List.modifyHead (fun h => (splitNl a).getLastD [] ++ h) (splitNl b) :=
  splitOnP_append _ a b

theorem splitNl_ne_nil (l : List Char) : splitNl l ≠ [] :=
  List.splitOnP_ne_nil _ l

/-- Every component of the newline split is free of line feeds. -/
theorem splitNl_no_nl (l : List Char) :
    ∀ comp ∈ splitNl l, '\n' ∉ comp := by
  induction l with
  | nil =>
    intro comp hc
    simp only [splitNl, List.splitOn, List.splitOnP_nil, List.mem_singleton] at hc
    simp [hc]
  | cons c l ih =>
    intro comp hc
    simp only [splitNl, List.splitOn] at hc ih
    rw [List.splitOnP_cons] at hc
    by_cases h : c == '\n'
    · rw [if_pos h] at hc
      rcases List.mem_cons.mp hc with h1 | h1
      · simp [h1]
      · exact ih comp h1
    · rw [if_neg h] at hc
      obtain ⟨hd, tl, heq⟩ := List.exists_cons_of_ne_nil (List.splitOnP_ne_nil (· == '\n') l)
      rw [heq, List.modifyHead_cons] at hc
      rcases List.mem_cons.mp hc with h1 | h1
      · subst h1
        intro hmem
        rcases List.mem_cons.mp hmem with h2 | h2
        · exact h (by simp [h2.symm])
        · exact ih hd (heq ▸ List.mem_cons_self hd tl) h2
      · exact ih comp (heq ▸ List.mem_cons_of_mem hd h1)

/-- A list without line feeds splits into itself alone. -/
theorem splitNl_eq_single {l : List Char} (h : '\n' ∉ l) : splitNl l = [l] := by
  unfold splitNl List.splitOn
  exact List.splitOnP_eq_single _ _ (by
    intro x hx
    simp only [beq_iff_eq]
    intro heq
    exact h (heq ▸ hx))

/-- The retained partial line never contains a line feed. -/
theorem nextBuffer_no_nl (buffer data : List Char) :
    '\n' ∉ nextBuffer buffer data := by
  unfold nextBuffer
  obtain ⟨h, t, heq⟩ := List.exists_cons_of_ne_nil (splitNl_ne_nil (buffer ++ data))
  have hmem : (splitNl (buffer ++ data)).getLastD [] ∈ splitNl (buffer ++ data) := by
    rw [heq, List.getLastD_cons]
    exact List.getLastD_mem_cons t h
  exact splitNl_no_nl _ _ hmem

/-- Prepending a line-feed-free fragment only extends the first component
of the split. -/
theorem splitNl_append_of_no_nl {u : List Char} (h : '\n' ∉ u) (b : List Char) :
    splitNl (u ++ b) = List.modifyHead (fun t => u ++ t) (splitNl b) := by
  rw [splitNl_append, splitNl_eq_single h]
  rfl

theorem splitNl_buffer_append (buffer a b : List Char) :
    splitNl (buffer ++ (a ++ b)) =
      (splitNl (buffer ++ a)).dropLast ++ splitNl (nextBuffer buffer a ++ b) := by
  rw [← List.append_assoc, splitNl_append,
    splitNl_append_of_no_nl (nextBuffer_no_nl buffer a) b]
  rfl

theorem nextBuffer_append (buffer a b : List Char) :
    nextBuffer buffer (a ++ b) = nextBuffer (nextBuffer buffer a) b := by
  show (splitNl (buffer ++ (a ++ b))).getLastD [] =
    (splitNl (nextBuffer buffer a ++ b)).getLastD []
  rw [splitNl_buffer_append]
  exact getLastD_append _ _ (splitNl_ne_nil _) []

theorem completeLines_append (buffer a b : List Char) :
    completeLines buffer (a ++ b) =
      completeLines buffer a ++ completeLines (nextBuffer buffer a) b := by
  show (splitNl (buffer ++ (a ++ b))).dropLast =
    (splitNl (buffer ++ a)).dropLast ++ (splitNl (nextBuffer buffer a ++ b)).dropLast
  rw [splitNl_buffer_append]
  exact List.dropLast_append_of_ne_nil _ (splitNl_ne_nil _)

/-- `handleData` on a concatenation of two chunks is `handleData` on the
first followed by `handleData` on the second, with the emitted entries
concatenated. -/
theorem handleData_append (minLevel : LogLevel) (buffer a b : List Char) :
    handleData minLevel buffer (a ++ b) =
      ((handleData minLevel (handleData minLevel buffer a).1 b).1,
       (handleData minLevel buffer a).2 ++
         (handleData minLevel (handleData minLevel buffer a).1 b).2) := by
  unfold handleData
  simp only [nextBuffer_append, completeLines_append]
  rw [emitLines, List.filterMap_append]
  rfl

/-- Feeding any chunk sequence from a line-feed-free buffer is the same as
feeding the concatenation in one chunk. -/
theorem feedChunks_eq_handleData (minLevel : LogLevel) (buffer : List Char)
    (cs : List (List Char)) (h : '\n' ∉ buffer) :
    feedChunks minLevel buffer cs = handleData minLevel buffer cs.flatten := by
  induction cs generalizing buffer with
  | nil =>
    unfold feedChunks handleData nextBuffer completeLines emitLines
    rw [List.flatten_nil, List.append_nil, splitNl_eq_single h]
    rfl
  | cons c cs ih =>
    rw [List.flatten_cons,
      handleData_append minLevel buffer c cs.flatten]
    simp only [feedChunks]
    rw [ih (handleData minLevel buffer c).1 (nextBuffer_no_nl buffer c)]

/-- C1 — Chunk split-invariance: two chunk sequences with the same
concatenation, fed in order through the Stream Engine's `handleData` from
an empty partial-line buffer, produce the same final buffer and the same
emitted entries in the same order; the entries processed are exactly those
of the newline-terminated complete lines of the concatenation
(`(splitNl …).dropLast`), and the trailing incomplete fragment
(`(splitNl …).getLastD []`) is what remains in the partial-line buffer. -/
theorem chunk_split_invariance (minLevel : LogLevel) (cs1 cs2 : List (List Char))
    (h : cs1.flatten = cs2.flatten) :
    feedChunks minLevel [] cs1 = feedChunks minLevel [] cs2 ∧
    (feedChunks minLevel [] cs1).2 =
      emitLines minLevel (splitNl cs1.flatten).dropLast ∧
    (feedChunks minLevel [] cs1).1 = (splitNl cs1.flatten).getLastD [] := by
  have h1 := feedChunks_eq_handleData minLevel [] cs1 (by simp)
  have h2 := feedChunks_eq_handleData minLevel [] cs2 (by simp)
  refine ⟨by rw [h1, h2, h], ?_, ?_⟩
  · rw [h1]
    unfold handleData completeLines
    rw [List.nil_append]
  · rw [h1]
    unfold handleData nextBuffer
    rw [List.nil_append]

/-- Witness for C1: the scenario logcat line followed by a fragment, split
at two different chunk boundaries, yields identical results. -/
theorem chunk_split_invariance_witness :
    feedChunks .V []
        [str "01-10 12:34:56.789  1234  5678 D MyTag", str "   : Hello world\npart"] =
      feedChunks .V []
        [str "01-10 12:34:56.789  1234  5678 D MyTag   : Hello world\np", str "art"] :=
  (chunk_split_invariance .V _ _ (by rfl)).1

/-- Folding accepted entries through the bounded push from any state
within capacity keeps exactly the most recent `C` elements. -/
theorem foldl_pushBounded (C : Nat) (es : List LogcatEntry)
    (buf : List LogcatEntry) (h : buf.length ≤ C) :
    es.foldl (pushBounded C) buf = (buf ++ es).drop ((buf ++ es).length - C) := by
  induction es generalizing buf with
  | nil =>
    rw [List.foldl_nil, List.append_nil, Nat.sub_eq_zero_of_le h, List.drop_zero]
  | cons e es ih =>
    rw [List.foldl_cons]
    by_cases hfit : buf.length + 1 ≤ C
    · have hstep : pushBounded C buf e = buf ++ [e] := by
        simp only [pushBounded, List.length_append, List.length_cons,
          List.length_nil]
        rw [if_neg (by omega)]
      rw [hstep, ih (buf ++ [e]) (by simpa using hfit),
        ← List.append_cons buf e es]
    · have hlen : buf.length = C := by omega
      have hstep : pushBounded C buf e = (buf ++ [e]).tail := by
        simp only [pushBounded, List.length_append, List.length_cons,
          List.length_nil]
        rw [if_pos (by omega)]
      have htail : ((buf ++ [e]).tail).length ≤ C := by
        rw [List.length_tail]
        simp [hlen]
      rw [hstep, ih _ htail]
      have h1 : (buf ++ [e]).tail ++ es = ((buf ++ [e]) ++ es).tail := by
        cases buf with
        | nil => rfl
        | cons x bt => rfl
      have h2 : (buf ++ [e]) ++ es = buf ++ e :: es := by simp
      rw [h1, h2, ← List.drop_one, List.drop_drop]
      congr 1
      rw [List.length_drop]
      simp only [List.length_append, List.length_cons, List.length_nil]
      omega

/-- C2 — Entry Buffer bounded FIFO: pushing any sequence of accepted
entries into an empty buffer of capacity `C` never exceeds `C` (also at
every intermediate step, i.e. after every prefix); pushing more than `C`
entries leaves exactly the last `C` in arrival order; within capacity
nothing is evicted; and one insertion at capacity evicts exactly the
single oldest element. -/
theorem entry_buffer_fifo (C : Nat) (es : List LogcatEntry) :
    (es.foldl (pushBounded C) []).length ≤ C ∧
    (∀ k, ((es.take k).foldl (pushBounded C) []).length ≤ C) ∧
    (C < es.length → es.foldl (pushBounded C) [] = es.drop (es.length - C)) ∧
    (es.length ≤ C → es.foldl (pushBounded C) [] = es) ∧
    (∀ buf e, buf.length = C → 0 < C →
      pushBounded C buf e = buf.tail ++ [e]) := by
  have key : ∀ l : List LogcatEntry,
      l.foldl (pushBounded C) [] = l.drop (l.length - C) := by
    intro l
    have := foldl_pushBounded C l [] (by simp)
    simpa using this
  have hlen : ∀ l : List LogcatEntry,
      (l.foldl (pushBounded C) []).length ≤ C := by
    intro l
    rw [key l, List.length_drop]
    omega
  refine ⟨hlen es, fun k => hlen (es.take k), ?_, ?_, ?_⟩
  · intro _
    exact key es
  · intro hle
    rw [key es, Nat.sub_eq_zero_of_le hle, List.drop_zero]
  · intro buf e hbuf hpos
    have hne : buf ≠ [] := by
      intro hnil
      rw [hnil] at hbuf
      simp at hbuf
      omega
    obtain ⟨x, bt, rfl⟩ := List.exists_cons_of_ne_nil hne
    simp only [pushBounded, List.length_append, List.length_cons,
      List.length_nil]
    rw [if_pos (by simp at hbuf ⊢; omega)]
    rfl

/-- Witness for C2: capacity 2, three pushes — the buffer ends holding
exactly the last two entries. -/
theorem entry_buffer_fifo_witness :
    ([sampleEntry 1, sampleEntry 2, sampleEntry 3].foldl (pushBounded 2) []) =
      [sampleEntry 2, sampleEntry 3] := by
  have h := (entry_buffer_fifo 2 [sampleEntry 1, sampleEntry 2, sampleEntry 3]).2.2.1
    (by simp)
  simpa using h

/-- The empty string is a substring of everything (JS
`s.includes("") === true`). -/
theorem containsSub_nil (hay : List Char) : containsSub hay [] = true := by
  cases hay <;> rfl

/-- The code's boolean text filter agrees with the spec's disjunction,
including the JS-truthiness corner: an empty filter string passes
everything, exactly as the empty substring is contained in everything. -/
theorem textFilterAccepts_iff (filter : Option (List Char)) (e : LogcatEntry) :
    textFilterAccepts filter e = true ↔
      ∀ f ∈ filter,
        (containsSub (toLowerStr e.tag) (toLowerStr f) = true ∨
         containsSub (toLowerStr e.message) (toLowerStr f) = true) := by
  cases filter with
  | none => simp [textFilterAccepts]
  | some f =>
    by_cases hf : f.isEmpty
    · have hnil : f = [] := by simpa using hf
      subst hnil
      simp [textFilterAccepts, containsSub_nil, toLowerStr]
    · simp [textFilterAccepts, hf, Bool.or_eq_true]

/-- C6 — Filter pipeline: `addEntry` retains an entry into the Entry
Buffer (pushing it through the bounded push) exactly when its level is at
least the configured minimum and the text filter condition of the spec
holds; an entry failing either filter leaves the provider state entirely
unchanged — it is dropped before reaching the buffer, never retained. -/
theorem filter_pipeline (st : ProviderState) (e : LogcatEntry) :
    (specAccepts st e →
      addEntry st e = { st with entries := pushBounded st.maxEntries st.entries e }) ∧
    (¬ specAccepts st e → addEntry st e = st) := by
  by_cases h1 : LOG_LEVEL_PRIORITY e.level < LOG_LEVEL_PRIORITY st.minLevel
  · refine ⟨fun hs => absurd hs.1 (by omega), fun _ => ?_⟩
    rw [addEntry, if_pos h1]
  · by_cases h2 : textFilterAccepts st.filter e = true
    · refine ⟨fun _ => ?_, fun hn => absurd ?_ hn⟩
      · rw [addEntry, if_neg h1, if_neg (by simp [h2])]
      · exact ⟨by omega, (textFilterAccepts_iff st.filter e).mp h2⟩
    · refine ⟨fun hs => ?_, fun _ => ?_⟩
      · exact absurd ((textFilterAccepts_iff st.filter e).mpr hs.2) h2
      · rw [addEntry, if_neg h1, if_pos (by simp [h2])]

/-- Witness for C6: with minimum level D and filter "tag", an Info entry
tagged "Tag" is retained; the same entry is dropped when the filter is
"zzz", leaving the state unchanged. -/
theorem filter_pipeline_witness :
    addEntry { entries := [], maxEntries := 5, filter := some (str "tag"),
               minLevel := .D } (sampleEntry 7) =
      { entries := [sampleEntry 7], maxEntries := 5,
        filter := some (str "tag"), minLevel := .D } := by
  have h := (filter_pipeline
    { entries := [], maxEntries := 5, filter := some (str "tag"),
      minLevel := .D } (sampleEntry 7)).1
    (by
      refine ⟨by decide, ?_⟩
      intro f hf
      cases hf
      left
      decide)
  rw [h]
  rfl

/-!
Character-class and run-splitting lemmas for the logcat line parser.
-/

theorem isWsJs_cases {c : Char} (h : isWsJs c = true) :
    c = ' ' ∨ c = '\t' ∨ c = '\n' ∨ c = '\x0b' ∨ c = '\x0c' ∨ c = '\r' := by
  have h' := h
  simp only [isWsJs, Bool.or_eq_true, decide_eq_true_eq] at h'
  tauto

theorem not_digit_of_ws {c : Char} (h : isWsJs c = true) :
    isDigitJs c = false := by
  rcases isWsJs_cases h with h1 | h1 | h1 | h1 | h1 | h1 <;> subst h1 <;> decide

theorem not_ws_of_digit {c : Char} (h : isDigitJs c = true) :
    isWsJs c = false := by
  by_contra hne
  have hws : isWsJs c = true := by
    cases hx : isWsJs c with
    | false => exact absurd hx hne
    | true => rfl
  rw [not_digit_of_ws hws] at h
  cases h

theorem ne_colon_of_ws {c : Char} (h : isWsJs c = true) : c ≠ ':' := by
  rcases isWsJs_cases h with h1 | h1 | h1 | h1 | h1 | h1 <;> subst h1 <;> decide

theorem not_ws_of_level {c : Char} {l : LogLevel} (h : charToLevel c = some l) :
    isWsJs c = false := by
  unfold charToLevel at h
  split_ifs at h with h1 h2 h3 h4 h5 h6 h7 <;>
    first
      | (subst h1; decide)
      | (subst h2; decide)
      | (subst h3; decide)
      | (subst h4; decide)
      | (subst h5; decide)
      | (subst h6; decide)
      | (subst h7; decide)

/-- A maximal run: `takeWhile`/`dropWhile` split an append exactly at the
boundary when everything left of it satisfies `p` and the first character
right of it does not. -/
theorem run_split {p : Char → Bool} (l1 l2 : List Char)
    (h1 : ∀ c ∈ l1, p c = true)
    (h2 : ∀ c, l2.head? = some c → p c = false) :
    (l1 ++ l2).takeWhile p = l1 ∧ (l1 ++ l2).dropWhile p = l2 := by
  induction l1 with
  | nil =>
    simp only [List.nil_append]
    cases l2 with
    | nil => exact ⟨rfl, rfl⟩
    | cons c t =>
      have hc := h2 c rfl
      rw [List.takeWhile_cons, List.dropWhile_cons]
      simp [hc]
  | cons a l1 ih =>
    have ha := h1 a (List.mem_cons_self a l1)
    have ih' := ih fun c hc => h1 c (List.mem_cons_of_mem a hc)
    rw [List.cons_append, List.takeWhile_cons, List.dropWhile_cons]
    simp [ha, ih'.1, ih'.2]

theorem takeSome_eq {p : Char → Bool} (l1 l2 : List Char)
    (h1 : ∀ c ∈ l1, p c = true) (hne : l1 ≠ [])
    (h2 : ∀ c, l2.head? = some c → p c = false) :
    takeSome p (l1 ++ l2) = some (l1, l2) := by
  obtain ⟨hl, hr⟩ := run_split l1 l2 h1 h2
  unfold takeSome
  rw [hl, hr]
  simp [hne]

theorem takeExact_eq {p : Char → Bool} (l1 : List Char) :
    ∀ l2, (∀ c ∈ l1, p c = true) →
      takeExact p l1.length (l1 ++ l2) = some (l1, l2) := by
  induction l1 with
  | nil => intro l2 _; rfl
  | cons a l1 ih =>
    intro l2 h
    have ha := h a (List.mem_cons_self a l1)
    rw [List.length_cons, List.cons_append]
    unfold takeExact
    rw [if_pos ha, ih l2 fun c hc => h c (List.mem_cons_of_mem a hc)]

theorem expectChar_eq (c : Char) (l : List Char) :
    expectChar c (c :: l) = some l := by
  simp [expectChar]

/-- Variant of `takeExact_eq` taking the expected count as an argument. -/
theorem takeExact_count {p : Char → Bool} (n : Nat) (l1 l2 : List Char)
    (hn : l1.length = n) (h : ∀ c ∈ l1, p c = true) :
    takeExact p n (l1 ++ l2) = some (l1, l2) := by
  subst hn
  exact takeExact_eq l1 l2 h

/-- A nonempty run whose characters all satisfy `q` guards the head of an
append against any class disjoint from `q`. -/
theorem head_not_of_all {p q : Char → Bool} (l1 l2 : List Char)
    (hne : l1 ≠ []) (hall : ∀ c ∈ l1, q c = true)
    (himp : ∀ c, q c = true → p c = false) :
    ∀ c, (l1 ++ l2).head? = some c → p c = false := by
  obtain ⟨a, t, rfl⟩ := List.exists_cons_of_ne_nil hne
  intro c hc
  rw [List.cons_append] at hc
  simp only [List.head?_cons, Option.some.injEq] at hc
  subst hc
  exact himp a (hall a (List.mem_cons_self a t))

theorem parseDatePart_eq (mo dy rest : List Char)
    (hmo : mo.length = 2) (hmo' : ∀ c ∈ mo, isDigitJs c = true)
    (hdy : dy.length = 2) (hdy' : ∀ c ∈ dy, isDigitJs c = true) :
    parseDatePart (mo ++ '-' :: (dy ++ rest)) = some (mo ++ '-' :: dy, rest) := by
  have h1 := takeExact_count 2 mo ('-' :: (dy ++ rest)) hmo hmo'
  have h2 := expectChar_eq '-' (dy ++ rest)
  have h3 := takeExact_count 2 dy rest hdy hdy'
  simp only [parseDatePart, h1, Option.some_bind, h2, h3]
  rfl

theorem parseTimePart_eq (hh mi ss ms rest : List Char)
    (hh1 : hh.length = 2) (hh2 : ∀ c ∈ hh, isDigitJs c = true)
    (hm1 : mi.length = 2) (hm2 : ∀ c ∈ mi, isDigitJs c = true)
    (hs1 : ss.length = 2) (hs2 : ∀ c ∈ ss, isDigitJs c = true)
    (hms1 : ms.length = 3) (hms2 : ∀ c ∈ ms, isDigitJs c = true) :
    parseTimePart (hh ++ ':' :: (mi ++ ':' :: (ss ++ '.' :: (ms ++ rest)))) =
      some (hh ++ ':' :: mi ++ ':' :: ss ++ '.' :: ms, rest) := by
  have h1 := takeExact_count 2 hh (':' :: (mi ++ ':' :: (ss ++ '.' :: (ms ++ rest)))) hh1 hh2
  have h2 := expectChar_eq ':' (mi ++ ':' :: (ss ++ '.' :: (ms ++ rest)))
  have h3 := takeExact_count 2 mi (':' :: (ss ++ '.' :: (ms ++ rest))) hm1 hm2
  have h4 := expectChar_eq ':' (ss ++ '.' :: (ms ++ rest))
  have h5 := takeExact_count 2 ss ('.' :: (ms ++ rest)) hs1 hs2
  have h6 := expectChar_eq '.' (ms ++ rest)
  have h7 := takeExact_count 3 ms rest hms1 hms2
  simp only [parseTimePart, h1, Option.some_bind, h2, h3, h4, h5, h6, h7]
  rfl

/-- Trimming a token surrounded by whitespace runs recovers the token. -/
theorem trimJs_decomp (ws1 tag ws2 : List Char)
    (hw1 : ∀ c ∈ ws1, isWsJs c = true) (hw2 : ∀ c ∈ ws2, isWsJs c = true)
    (hne : tag ≠ [])
    (hhead : ∀ c, tag.head? = some c → isWsJs c = false)
    (hlast : ∀ c, tag.getLast? = some c → isWsJs c = false) :
    trimJs (ws1 ++ (tag ++ ws2)) = tag := by
  unfold trimJs
  have step1 : (ws1 ++ (tag ++ ws2)).dropWhile isWsJs = tag ++ ws2 :=
    (run_split ws1 (tag ++ ws2) hw1 (by
      intro c hc
      rw [List.head?_append_of_ne_nil tag hne] at hc
      exact hhead c hc)).2
  rw [step1, List.reverse_append]
  have step2 : (ws2.reverse ++ tag.reverse).dropWhile isWsJs = tag.reverse :=
    (run_split ws2.reverse tag.reverse
      (fun c hc => hw2 c (List.mem_reverse.mp hc))
      (by
        intro c hc
        rw [List.head?_reverse] at hc
        exact hlast c hc)).2
  rw [step2, List.reverse_reverse]

/-- The tag/message tail of the regex on a well-formed decomposition:
whitespace, a colon-free tag with non-whitespace ends, optional
whitespace, the colon, optional whitespace, and a message that does not
begin with whitespace or contain a line terminator. -/
theorem parseTagMessage_eq (ws1 tag ws2 ws3 msg : List Char)
    (hw1 : ∀ c ∈ ws1, isWsJs c = true) (hw1ne : ws1 ≠ [])
    (hw2 : ∀ c ∈ ws2, isWsJs c = true)
    (hw3 : ∀ c ∈ ws3, isWsJs c = true)
    (htagne : tag ≠ [])
    (htagcolon : ∀ c ∈ tag, c ≠ ':')
    (hhead : ∀ c, tag.head? = some c → isWsJs c = false)
    (hlast : ∀ c, tag.getLast? = some c → isWsJs c = false)
    (hmsghead : ∀ c, msg.head? = some c → isWsJs c = false)
    (hmsgterm : ∀ c ∈ msg, c ≠ '\n' ∧ c ≠ '\r') :
    parseTagMessage (ws1 ++ (tag ++ (ws2 ++ ':' :: (ws3 ++ msg)))) =
      some (tag, msg) := by
  have hassoc : ws1 ++ (tag ++ (ws2 ++ ':' :: (ws3 ++ msg))) =
      (ws1 ++ (tag ++ ws2)) ++ ':' :: (ws3 ++ msg) := by
    simp [List.append_assoc]
  have hall : ∀ c ∈ ws1 ++ (tag ++ ws2),
      (fun c => decide (c ≠ ':')) c = true := by
    intro c hc
    simp only [decide_eq_true_eq]
    rcases List.mem_append.mp hc with h | h
    · exact ne_colon_of_ws (hw1 c h)
    · rcases List.mem_append.mp h with h' | h'
      · exact htagcolon c h'
      · exact ne_colon_of_ws (hw2 c h')
  have hsplit := run_split (ws1 ++ (tag ++ ws2)) (':' :: (ws3 ++ msg)) hall
    (by
      intro c hc
      simp only [List.head?_cons, Option.some.injEq] at hc
      subst hc
      simp)
  have hmsg : (ws3 ++ msg).dropWhile isWsJs = msg :=
    (run_split ws3 msg hw3 hmsghead).2
  have htrim : trimJs (ws1 ++ (tag ++ ws2)) = tag :=
    trimJs_decomp ws1 tag ws2 hw1 hw2 htagne hhead hlast
  obtain ⟨a, ws1', rfl⟩ := List.exists_cons_of_ne_nil hw1ne
  have hA : isWsJs a = true := hw1 a (List.mem_cons_self a ws1')
  have hEmp : ((ws1' ++ (tag ++ ws2)).isEmpty) = false := by
    rcases htag : tag with _ | ⟨t0, ts⟩
    · exact absurd htag htagne
    · cases ws1' <;> simp
  have hallmsg : (msg.all fun c => c ≠ '\n' && c ≠ '\r') = true := by
    rw [List.all_eq_true]
    intro c hc
    have := hmsgterm c hc
    simp [this.1, this.2]
  rw [hassoc]
  unfold parseTagMessage
  rw [hsplit.1, hsplit.2]
  simp only [List.cons_append] at htrim ⊢
  simp [hA, hEmp, hmsg, htrim, hallmsg]
  exact hmsgterm

theorem dropWhile_head_false {p : Char → Bool} {l : List Char} {c : Char}
    (h : (l.dropWhile p).head? = some c) : p c = false := by
  have := List.head?_dropWhile_not p l
  rw [h] at this
  exact this

theorem dropWhile_eq_self {p : Char → Bool} {l : List Char}
    (h : ∀ c, l.head? = some c → p c = false) : l.dropWhile p = l := by
  cases l with
  | nil => rfl
  | cons a t =>
    rw [List.dropWhile_cons, if_neg]
    rw [h a rfl]
    simp

/-- Trimming is idempotent. -/
theorem trimJs_idem (l : List Char) : trimJs (trimJs l) = trimJs l := by
  have hpre : trimJs l <+: l.dropWhile isWsJs := by
    have hsuf : (l.dropWhile isWsJs).reverse.dropWhile isWsJs <:+
        (l.dropWhile isWsJs).reverse := List.dropWhile_suffix _
    have := List.reverse_prefix.mpr hsuf
    rwa [List.reverse_reverse] at this
  obtain ⟨w, hw⟩ := hpre
  have hstep1 : (trimJs l).dropWhile isWsJs = trimJs l := by
    apply dropWhile_eq_self
    intro c hc
    rcases ht : trimJs l with _ | ⟨t0, ts⟩
    · rw [ht] at hc
      cases hc
    · rw [ht] at hw
      have hh : (l.dropWhile isWsJs).head? = some t0 := by
        rw [← hw]
        rfl
      have hfalse := dropWhile_head_false hh
      rw [ht] at hc
      simp only [List.head?_cons, Option.some.injEq] at hc
      rcases hc with rfl
      exact hfalse
  have hstep2 : (trimJs l).reverse.dropWhile isWsJs = (trimJs l).reverse := by
    have hv : (trimJs l).reverse =
        (l.dropWhile isWsJs).reverse.dropWhile isWsJs := by
      show ((((l.dropWhile isWsJs).reverse.dropWhile isWsJs).reverse).reverse) = _
      rw [List.reverse_reverse]
    rw [hv]
    apply dropWhile_eq_self
    intro c hc
    exact dropWhile_head_false hc
  show (((trimJs l).dropWhile isWsJs).reverse.dropWhile isWsJs).reverse = trimJs l
  rw [hstep1, hstep2, List.reverse_reverse]

/-- Whatever `parseTagMessage` returns as a tag is already trimmed. -/
theorem parseTagMessage_trim {r t m : List Char}
    (h : parseTagMessage r = some (t, m)) : t = trimJs t := by
  unfold parseTagMessage at h
  split at h
  · cases h
  · dsimp only at h
    split at h
    · cases h
    · split at h
      · split at h
        · simp only [Option.some.injEq, Prod.mk.injEq] at h
          rw [← h.1]
          exact (trimJs_idem _).symm
        · cases h
      · cases h

/-- Every entry `parseLogcatLine` produces has a trimmed tag. -/
theorem parseLogcatLine_tag_trimmed (line : List Char) (e : LogcatEntry)
    (h : parseLogcatLine line = some e) : e.tag = trimJs e.tag := by
  unfold parseLogcatLine at h
  rw [Option.bind_eq_some] at h
  obtain ⟨⟨date, l1⟩, _, h⟩ := h
  dsimp only at h
  rw [Option.bind_eq_some] at h
  obtain ⟨⟨w1, l2⟩, _, h⟩ := h
  dsimp only at h
  rw [Option.bind_eq_some] at h
  obtain ⟨⟨time, l3⟩, _, h⟩ := h
  dsimp only at h
  rw [Option.bind_eq_some] at h
  obtain ⟨⟨w2, l4⟩, _, h⟩ := h
  dsimp only at h
  rw [Option.bind_eq_some] at h
  obtain ⟨⟨pid, l5⟩, _, h⟩ := h
  dsimp only at h
  rw [Option.bind_eq_some] at h
  obtain ⟨⟨w3, l6⟩, _, h⟩ := h
  dsimp only at h
  rw [Option.bind_eq_some] at h
  obtain ⟨⟨tid, l7⟩, _, h⟩ := h
  dsimp only at h
  rw [Option.bind_eq_some] at h
  obtain ⟨⟨w4, l8⟩, _, h⟩ := h
  dsimp only at h
  rcases l8 with _ | ⟨c, l9⟩
  · cases h
  · rw [Option.bind_eq_some] at h
    obtain ⟨lvl, _, h⟩ := h
    rw [Option.map_eq_some'] at h
    obtain ⟨⟨tag, msg⟩, htm, heq⟩ := h
    rw [← heq]
    exact parseTagMessage_trim htm

/-- Completeness of `parseLogcatLine` on the threadtime grammar
`MM-DD HH:MM:SS.mmm PID TID LEVEL TAG: MESSAGE`: every line decomposing
into digit groups of the right widths, nonempty whitespace separators, a
level code, a colon-free tag with non-whitespace ends, optional
whitespace around the colon and a message that neither starts with
whitespace nor contains a line terminator is parsed into exactly the
corresponding entry — the tag as written (trimmed), the message verbatim,
internal colons included. -/
theorem parseLogcatLine_grammar
    (mo dy hh mi ss ms pid tid : List Char)
    (w1 w2 w3 w4 w5 wA wB : List Char)
    (lvlc : Char) (lvl : LogLevel) (tag msg : List Char)
    (hmo1 : mo.length = 2) (hmo2 : ∀ c ∈ mo, isDigitJs c = true)
    (hdy1 : dy.length = 2) (hdy2 : ∀ c ∈ dy, isDigitJs c = true)
    (hhh1 : hh.length = 2) (hhh2 : ∀ c ∈ hh, isDigitJs c = true)
    (hmi1 : mi.length = 2) (hmi2 : ∀ c ∈ mi, isDigitJs c = true)
    (hss1 : ss.length = 2) (hss2 : ∀ c ∈ ss, isDigitJs c = true)
    (hms1 : ms.length = 3) (hms2 : ∀ c ∈ ms, isDigitJs c = true)
    (hpid1 : pid ≠ []) (hpid2 : ∀ c ∈ pid, isDigitJs c = true)
    (htid1 : tid ≠ []) (htid2 : ∀ c ∈ tid, isDigitJs c = true)
    (hw1 : ∀ c ∈ w1, isWsJs c = true) (hw1ne : w1 ≠ [])
    (hw2 : ∀ c ∈ w2, isWsJs c = true) (hw2ne : w2 ≠ [])
    (hw3 : ∀ c ∈ w3, isWsJs c = true) (hw3ne : w3 ≠ [])
    (hw4 : ∀ c ∈ w4, isWsJs c = true) (hw4ne : w4 ≠ [])
    (hw5 : ∀ c ∈ w5, isWsJs c = true) (hw5ne : w5 ≠ [])
    (hwA : ∀ c ∈ wA, isWsJs c = true)
    (hwB : ∀ c ∈ wB, isWsJs c = true)
    (hlvl : charToLevel lvlc = some lvl)
    (htagne : tag ≠ []) (htagcolon : ∀ c ∈ tag, c ≠ ':')
    (htaghead : ∀ c, tag.head? = some c → isWsJs c = false)
    (htaglast : ∀ c, tag.getLast? = some c → isWsJs c = false)
    (hmsghead : ∀ c, msg.head? = some c → isWsJs c = false)
    (hmsgterm : ∀ c ∈ msg, c ≠ '\n' ∧ c ≠ '\r') :
    parseLogcatLine
      (mo ++ '-' :: (dy ++ (w1 ++ (hh ++ ':' :: (mi ++ ':' :: (ss ++ '.' :: (ms ++
        (w2 ++ (pid ++ (w3 ++ (tid ++ (w4 ++ lvlc ::
          (w5 ++ (tag ++ (wA ++ ':' :: (wB ++ msg)))))))))))))))) =
      some { date := mo ++ '-' :: dy,
             time := hh ++ ':' :: mi ++ ':' :: ss ++ '.' :: ms,
             pid := digitsToNat pid, tid := digitsToNat tid,
             level := lvl, tag := tag, message := msg } := by
  have hhhne : hh ≠ [] := by
    intro hx
    rw [hx] at hhh1
    cases hhh1
  have hdate := parseDatePart_eq mo dy
    (w1 ++ (hh ++ ':' :: (mi ++ ':' :: (ss ++ '.' :: (ms ++
      (w2 ++ (pid ++ (w3 ++ (tid ++ (w4 ++ lvlc ::
        (w5 ++ (tag ++ (wA ++ ':' :: (wB ++ msg))))))))))))))
    hmo1 hmo2 hdy1 hdy2
  have hws1 := takeSome_eq w1
    (hh ++ ':' :: (mi ++ ':' :: (ss ++ '.' :: (ms ++
      (w2 ++ (pid ++ (w3 ++ (tid ++ (w4 ++ lvlc ::
        (w5 ++ (tag ++ (wA ++ ':' :: (wB ++ msg)))))))))))))
    hw1 hw1ne
    (head_not_of_all hh _ hhhne hhh2 fun c hc => not_ws_of_digit hc)
  have htime := parseTimePart_eq hh mi ss ms
    (w2 ++ (pid ++ (w3 ++ (tid ++ (w4 ++ lvlc ::
      (w5 ++ (tag ++ (wA ++ ':' :: (wB ++ msg)))))))))
    hhh1 hhh2 hmi1 hmi2 hss1 hss2 hms1 hms2
  have hws2 := takeSome_eq w2
    (pid ++ (w3 ++ (tid ++ (w4 ++ lvlc ::
      (w5 ++ (tag ++ (wA ++ ':' :: (wB ++ msg))))))))
    hw2 hw2ne
    (head_not_of_all pid _ hpid1 hpid2 fun c hc => not_ws_of_digit hc)
  have hpid := takeSome_eq pid
    (w3 ++ (tid ++ (w4 ++ lvlc :: (w5 ++ (tag ++ (wA ++ ':' :: (wB ++ msg)))))))
    hpid2 hpid1
    (head_not_of_all w3 _ hw3ne hw3 fun c hc => not_digit_of_ws hc)
  have hws3 := takeSome_eq w3
    (tid ++ (w4 ++ lvlc :: (w5 ++ (tag ++ (wA ++ ':' :: (wB ++ msg))))))
    hw3 hw3ne
    (head_not_of_all tid _ htid1 htid2 fun c hc => not_ws_of_digit hc)
  have htid := takeSome_eq tid
    (w4 ++ lvlc :: (w5 ++ (tag ++ (wA ++ ':' :: (wB ++ msg)))))
    htid2 htid1
    (head_not_of_all w4 _ hw4ne hw4 fun c hc => not_digit_of_ws hc)
  have hws4 := takeSome_eq w4
    (lvlc :: (w5 ++ (tag ++ (wA ++ ':' :: (wB ++ msg)))))
    hw4 hw4ne
    (by
      intro c hc
      simp only [List.head?_cons, Option.some.injEq] at hc
      rcases hc with rfl
      exact not_ws_of_level hlvl)
  have htag := parseTagMessage_eq w5 tag wA wB msg hw5 hw5ne hwA hwB
    htagne htagcolon htaghead htaglast hmsghead hmsgterm
  simp only [parseLogcatLine, hdate, Option.some_bind, hws1, htime, hws2,
    hpid, hws3, htid, hws4, hlvl, htag]
  rfl

/-- C5 — `parseLogcatLine` is a total deterministic function: every line
matching the threadtime grammar (any well-formed decomposition) parses to
exactly the corresponding entry, with the tag trimmed of surrounding
whitespace and the message taken verbatim (internal colons preserved);
every entry it ever returns has a trimmed tag; the spec's scenario line
yields pid 1234, tid 5678, level D, tag "MyTag", message "Hello world";
and a non-matching string yields null (the function is total, so it never
throws). -/
theorem parseLine_spec :
    (∀ mo dy hh mi ss ms pid tid w1 w2 w3 w4 w5 wA wB lvlc lvl tag msg,
      threadtimeWf mo dy hh mi ss ms pid tid w1 w2 w3 w4 w5 wA wB lvlc lvl tag msg →
      parseLogcatLine
          (threadtimeLine mo dy hh mi ss ms pid tid w1 w2 w3 w4 w5 wA wB lvlc tag msg) =
        some (threadtimeEntry mo dy hh mi ss ms pid tid lvl tag msg)) ∧
    (∀ line e, parseLogcatLine line = some e → e.tag = trimJs e.tag) ∧
    parseLogcatLine (str "01-10 12:34:56.789  1234  5678 D MyTag   : Hello world") =
      some { date := str "01-10", time := str "12:34:56.789", pid := 1234,
             tid := 5678, level := .D, tag := str "MyTag",
             message := str "Hello world" } ∧
    parseLogcatLine (str "garbage") = none := by
  refine ⟨?_, parseLogcatLine_tag_trimmed, by decide, by decide⟩
  intro mo dy hh mi ss ms pid tid w1 w2 w3 w4 w5 wA wB lvlc lvl tag msg hwf
  obtain ⟨h1, h2, h3, h4, h5, h6, h7, h8, h9, h10, h11, h12, h13, h14, h15, h16,
    h17, h18, h19, h20, h21, h22, h23, h24, h25, h26, h27, h28, h29, h30, h31,
    h32, h33, h34, h35⟩ := hwf
  have htaghead : ∀ c, tag.head? = some c → isWsJs c = false := by
    intro c hc
    cases tag with
    | nil => cases hc
    | cons a t =>
      simp only [List.head?_cons, Option.some.injEq] at hc
      rcases hc with rfl
      exact h32
  have htaglast : ∀ c, tag.getLast? = some c → isWsJs c = false := by
    intro c hc
    rw [List.getLastD_eq_getLast?, hc] at h33
    simpa using h33
  have hmsghead : ∀ c, msg.head? = some c → isWsJs c = false := by
    intro c hc
    rcases h34 with h34 | h34
    · subst h34
      cases hc
    · cases msg with
      | nil => cases hc
      | cons a t =>
        simp only [List.head?_cons, Option.some.injEq] at hc
        rcases hc with rfl
        exact h34
  have hall : ∀ {l : List Char} {p : Char → Bool},
      l.all p = true → ∀ c ∈ l, p c = true := fun h c hc =>
    List.all_eq_true.mp h c hc
  show parseLogcatLine
      (mo ++ '-' :: (dy ++ (w1 ++ (hh ++ ':' :: (mi ++ ':' :: (ss ++ '.' :: (ms ++
        (w2 ++ (pid ++ (w3 ++ (tid ++ (w4 ++ lvlc ::
          (w5 ++ (tag ++ (wA ++ ':' :: (wB ++ msg)))))))))))))))) = _
  exact parseLogcatLine_grammar mo dy hh mi ss ms pid tid w1 w2 w3 w4 w5 wA wB
    lvlc lvl tag msg
    h1 (hall h2) h3 (hall h4) h5 (hall h6) h7 (hall h8) h9 (hall h10)
    h11 (hall h12) h13 (hall h14) h15 (hall h16)
    (hall h18) h17 (hall h20) h19 (hall h22) h21 (hall h24) h23 (hall h26) h25
    (hall h27) (hall h28) h29 h30
    (fun c hc => by simpa using hall h31 c hc)
    htaghead htaglast hmsghead
    (fun c hc => by simpa using hall h35 c hc)

/-- Witness for C5: the scenario line `01-10 12:34:56.789  1234  5678 D
MyTag   : Hello world`, decomposed per the grammar, parses to the entry
with pid 1234, tid 5678, level D, tag "MyTag", message "Hello world". -/
theorem parseLine_spec_witness :
    parseLogcatLine (threadtimeLine (str "01") (str "10") (str "12") (str "34")
        (str "56") (str "789") (str "1234") (str "5678") (str " ") (str "  ")
        (str "  ") (str " ") (str " ") (str "   ") (str " ") 'D'
        (str "MyTag") (str "Hello world")) =
      some (threadtimeEntry (str "01") (str "10") (str "12") (str "34")
        (str "56") (str "789") (str "1234") (str "5678") .D
        (str "MyTag") (str "Hello world")) :=
  parseLine_spec.1 (str "01") (str "10") (str "12") (str "34")
    (str "56") (str "789") (str "1234") (str "5678") (str " ") (str "  ")
    (str "  ") (str " ") (str " ") (str "   ") (str " ") 'D' .D
    (str "MyTag") (str "Hello world") (by unfold threadtimeWf; decide)

/-- Filtering with an if-to-none body is filtering then mapping. -/
theorem filterMap_if_eq_filter (cond : List Char → Bool)
    (f : List Char → Option Device) (ls : List (List Char)) :
    (ls.filterMap fun l => if cond l then none else f l) =
      (ls.filter fun l => !cond l).filterMap f := by
  induction ls with
  | nil => rfl
  | cons a ls ih =>
    by_cases h : cond a = true
    · simp [List.filterMap_cons, List.filter_cons, h, ih]
    · have h' : cond a = false := by
        cases hx : cond a with
        | true => exact absurd hx h
        | false => rfl
      simp [List.filterMap_cons, List.filter_cons, h', ih]

/-- C7 — Device listing parse: the scenario line yields a `Device` with
`isEmulator` true and model `sdk_gphone64_arm64`; lines with fewer than
two whitespace-separated tokens are silently skipped; a line with at
least two tokens parses with first token as serial, second as state,
remaining tokens as `key:value` properties, and `isEmulator` iff the
serial starts with the emulator prefix or contains the default wireless
port; tokens without a colon are ignored; and `getDevices` drops exactly
the header line and blank lines before parsing. -/
theorem deviceListing_spec :
    (parseDeviceLine (str "emulator-5554 device product:sdk_gphone64_arm64 model:sdk_gphone64_arm64 device:emu64a transport_id:1") =
      some { serial := str "emulator-5554", state := str "device",
             model := some (str "sdk_gphone64_arm64"),
             product := some (str "sdk_gphone64_arm64"),
             device := some (str "emu64a"), transportId := some (str "1"),
             isEmulator := true }) ∧
    (∀ line, (splitWsTokens line).length < 2 → parseDeviceLine line = none) ∧
    (∀ line serial state rest, splitWsTokens line = serial :: state :: rest →
      parseDeviceLine line =
        some { serial := serial, state := state,
               model := getProp (propsOf rest) (str "model"),
               product := getProp (propsOf rest) (str "product"),
               device := getProp (propsOf rest) (str "device"),
               transportId := getProp (propsOf rest) (str "transport_id"),
               isEmulator := (str "emulator-").isPrefixOf serial ||
                             containsSub serial (str ":5555") }) ∧
    (∀ tok, ':' ∉ tok → propOfToken tok = none) ∧
    (∀ stdout, parseDevicesOutput stdout =
      ((splitNl stdout).filter fun l =>
        !((str "List of devices").isPrefixOf l || (trimJs l).isEmpty)).filterMap
        parseDeviceLine) := by
  refine ⟨by decide, ?_, ?_, ?_, ?_⟩
  · intro line h
    unfold parseDeviceLine
    rcases hs : splitWsTokens line with _ | ⟨s, _ | ⟨st, rest⟩⟩
    · rfl
    · rfl
    · rw [hs] at h
      simp only [List.length_cons] at h
      omega
  · intro line serial state rest hs
    unfold parseDeviceLine
    rw [hs]
  · intro tok h
    unfold propOfToken
    have hsingle : tok.splitOn ':' = [tok] := by
      unfold List.splitOn
      exact List.splitOnP_eq_single _ _ (by
        intro x hx
        simp only [beq_iff_eq]
        intro heq
        exact h (heq ▸ hx))
    rw [hsingle]
  · intro stdout
    exact filterMap_if_eq_filter _ _ (splitNl stdout)

/-- Witness for C7: a line with two tokens and one property parses with
second token as state and the property extracted. -/
theorem deviceListing_witness :
    parseDeviceLine (str "192.168.0.7:5555 offline model:Pixel") =
      some { serial := str "192.168.0.7:5555", state := str "offline",
             model := some (str "Pixel"), product := none, device := none,
             transportId := none, isEmulator := true } := by
  have h := deviceListing_spec.2.2.1 (str "192.168.0.7:5555 offline model:Pixel")
    (str "192.168.0.7:5555") (str "offline") [str "model:Pixel"] (by decide)
  rw [h]
  decide

/-- C10 — Implicit: a listing line with at least two whitespace-separated
tokens always produces a `Device` whose `state` is the second token
verbatim; the unchecked `as DeviceState` cast performs no validation, so
an unrecognized state string passes through rather than being rejected or
mapped to `unknown`. -/
theorem device_state_verbatim (line serial state : List Char)
    (rest : List (List Char))
    (h : splitWsTokens line = serial :: state :: rest) :
    ∃ d, parseDeviceLine line = some d ∧ d.state = state ∧ d.serial = serial := by
  unfold parseDeviceLine
  rw [h]
  exact ⟨_, rfl, rfl, rfl⟩

/-- Witness for C10: a state string that is not one of the enumerated
`DeviceState` values is passed through verbatim. -/
theorem device_state_verbatim_witness :
    ∃ d, parseDeviceLine (str "abc bogus-state") = some d ∧
      d.state = str "bogus-state" ∧ d.serial = str "abc" :=
  device_state_verbatim (str "abc bogus-state") (str "abc")
    (str "bogus-state") [] (by decide)

/-- C8 counterexample — a ready device whose three queries all resolve,
with the API-level query returning empty stdout (as `getprop` does for a
missing property): `parseInt("")` is `NaN`, so the returned `apiLevel` is
not an integer and in particular not the fallback 0, contradicting
"apiLevel is always an integer, 0 whenever unresolved". -/
theorem resolve_nan_counterexample :
    (resolveDeviceInfo
      { serial := str "emulator-5554", state := str "device", model := none,
        product := none, device := none, transportId := none,
        isEmulator := true }
      { nameRes := .ok (str "Pixel"), apiStdout := .ok (str ""),
        versionStdout := .ok (str "14") }).apiLevel = none ∧
    (none : Option Int) ≠ some 0 := by
  constructor
  · decide
  · decide

/-- C8 amended — Graceful degradation of property resolution: a non-ready
device takes the fallback immediately (the result does not depend on any
query outcome, since no query is issued); if any of the three queries
rejects, the call still succeeds with the same fallback
(`name = model ?? serial`, `apiLevel = 0`, `androidVersion = "Unknown"`);
when all three resolve, `apiLevel` is `parseInt` of the trimmed query
stdout — an integer whenever that stdout is numeric, but `NaN` (not an
integer) when it is not. -/
theorem resolve_graceful (d : Device) (q : PropQueries) :
    (d.state ≠ str "device" → resolveDeviceInfo d q = basicInfo d) ∧
    ((q.nameRes = .error () ∨ q.apiStdout = .error () ∨
        q.versionStdout = .error ()) →
      resolveDeviceInfo d q = basicInfo d) ∧
    (basicInfo d).apiLevel = some 0 ∧
    (basicInfo d).name = d.model.getD d.serial ∧
    (basicInfo d).androidVersion = str "Unknown" ∧
    (∀ n sApi sVer,
      q = { nameRes := .ok n, apiStdout := .ok sApi, versionStdout := .ok sVer } →
      d.state = str "device" →
      resolveDeviceInfo d q =
        { toDevice := d, name := n, apiLevel := getApiLevelOf sApi,
          androidVersion := getAndroidVersionOf sVer }) := by
  refine ⟨?_, ?_, rfl, rfl, rfl, ?_⟩
  · intro hst
    unfold resolveDeviceInfo
    rw [if_pos hst]
  · intro herr
    by_cases hst : d.state = str "device"
    · unfold resolveDeviceInfo
      rw [if_neg (by simpa using hst)]
      rcases q with ⟨nr, ar, vr⟩
      rcases herr with h | h | h <;> rw [h] <;>
        cases nr <;> cases ar <;> cases vr <;> rfl
    · unfold resolveDeviceInfo
      rw [if_pos hst]
  · intro n sApi sVer hq hst
    subst hq
    unfold resolveDeviceInfo
    rw [if_neg (by simpa using hst)]

/-- Witness for C8's amended theorem: an offline device resolves to the
fallback, and a ready device with all queries resolved gets the parsed
API level. -/
theorem resolve_graceful_witness :
    resolveDeviceInfo
        { serial := str "s1", state := str "offline", model := some (str "m"),
          product := none, device := none, transportId := none,
          isEmulator := false }
        { nameRes := .ok (str "n"), apiStdout := .ok (str "34"),
          versionStdout := .ok (str "14") } =
      basicInfo
        { serial := str "s1", state := str "offline", model := some (str "m"),
          product := none, device := none, transportId := none,
          isEmulator := false } :=
  (resolve_graceful _ _).1 (by decide)

/-- Once `killSent` has been set, no later event unsets it. -/
theorem execStep_killSent (st : ExecState) (e : ExecEvent)
    (h : st.killSent = true) : (execStep st e).killSent = true := by
  cases e <;> (simp only [execStep, h]; try (split <;> simp [h]))

/-- A settled promise never changes outcome. -/
theorem execStep_outcome_stable (st : ExecState) (e : ExecEvent)
    (h : st.outcome ≠ .pending) : (execStep st e).outcome = st.outcome := by
  have hsettle : ∀ x, settleFirst st.outcome x = st.outcome := by
    intro x
    unfold settleFirst
    cases hx : st.outcome with
    | pending => exact absurd hx h
    | resolved r => rfl
    | rejectedTimeout => rfl
    | rejectedSpawnError => rfl
  cases e <;> simp only [execStep, hsettle] <;> split <;> simp [hsettle]

/-- Data events only accumulate output: the control fields are unchanged
by any prefix of data events. -/
theorem foldl_data_events (pre : List ExecEvent)
    (h : ∀ e ∈ pre, e.isData = true) :
    ∀ st : ExecState,
      ((pre.foldl execStep st).outcome = st.outcome ∧
       (pre.foldl execStep st).killed = st.killed ∧
       (pre.foldl execStep st).killSent = st.killSent ∧
       (pre.foldl execStep st).timerActive = st.timerActive) := by
  induction pre with
  | nil => exact fun st => ⟨rfl, rfl, rfl, rfl⟩
  | cons e pre ih =>
    intro st
    have he := h e (List.mem_cons_self e pre)
    have h' := ih (fun x hx => h x (List.mem_cons_of_mem e hx))
    rw [List.foldl_cons]
    cases e with
    | stdoutData s => exact h' _
    | stderrData s => exact h' _
    | closed code => cases he
    | spawnError => cases he
    | timerFired => cases he

/-- C3 — Timeout atomicity: in any run of `exec` in which the process
neither closes nor errors before the watchdog fires (the command does not
complete within the window), the final outcome is the timeout rejection
and a termination signal has been sent to the subprocess — no matter what
events follow.  In particular no result is ever returned to the caller
after the timeout fires: the `killed` flag blocks the close handler's
`resolve`, and the promise is already settled. -/
theorem exec_timeout_atomic (pre post : List ExecEvent)
    (hpre : ∀ e ∈ pre, e.isData = true) :
    (runExec (pre ++ ExecEvent.timerFired :: post)).outcome =
      ExecOutcome.rejectedTimeout ∧
    (runExec (pre ++ ExecEvent.timerFired :: post)).killSent = true := by
  unfold runExec
  rw [List.foldl_append, List.foldl_cons]
  obtain ⟨h1, h2, h3, h4⟩ := foldl_data_events pre hpre initExec
  have hfire :
      (execStep (pre.foldl execStep initExec) .timerFired).outcome =
        ExecOutcome.rejectedTimeout ∧
      (execStep (pre.foldl execStep initExec) .timerFired).killSent = true := by
    have ht : (pre.foldl execStep initExec).timerActive = true := by
      rw [h4]; rfl
    have ho : (pre.foldl execStep initExec).outcome = ExecOutcome.pending := by
      rw [h1]; rfl
    simp [execStep, ht, ho, settleFirst]
  have inv : ∀ (evs : List ExecEvent) (st : ExecState),
      st.outcome = ExecOutcome.rejectedTimeout → st.killSent = true →
      (evs.foldl execStep st).outcome = ExecOutcome.rejectedTimeout ∧
      (evs.foldl execStep st).killSent = true := by
    intro evs
    induction evs with
    | nil => exact fun st ho hk => ⟨ho, hk⟩
    | cons e evs ih =>
      intro st ho hk
      rw [List.foldl_cons]
      exact ih _
        (by rw [execStep_outcome_stable st e (by rw [ho]; intro hx; cases hx)]
            exact ho)
        (execStep_killSent st e hk)
  exact inv post _ hfire.1 hfire.2

/-- Witness for C3: output arrives, the timer fires, then the process
closes — the call is rejected with the timeout and the kill was sent. -/
theorem exec_timeout_atomic_witness :
    (runExec [ExecEvent.stdoutData (str "x"), ExecEvent.timerFired,
        ExecEvent.closed (some 0)]).outcome = ExecOutcome.rejectedTimeout ∧
    (runExec [ExecEvent.stdoutData (str "x"), ExecEvent.timerFired,
        ExecEvent.closed (some 0)]).killSent = true :=
  exec_timeout_atomic [ExecEvent.stdoutData (str "x")]
    [ExecEvent.closed (some 0)] (by decide)

/-- C9 — Implicit: when the subprocess closes with a null exit code before
the timeout fires (for example it was killed by an external signal),
`exec` resolves successfully with `exitCode = 0` — the run is
indistinguishable, in the returned result, from a process that exited
with code 0. -/
theorem exec_null_exit (pre : List ExecEvent)
    (hpre : ∀ e ∈ pre, e.isData = true) :
    runExec (pre ++ [ExecEvent.closed none]) =
      runExec (pre ++ [ExecEvent.closed (some 0)]) ∧
    ∃ r, (runExec (pre ++ [ExecEvent.closed none])).outcome =
      ExecOutcome.resolved r ∧ r.exitCode = 0 := by
  unfold runExec
  rw [List.foldl_append, List.foldl_append, List.foldl_cons, List.foldl_cons,
    List.foldl_nil, List.foldl_nil]
  obtain ⟨h1, h2, h3, h4⟩ := foldl_data_events pre hpre initExec
  constructor
  · rfl
  · have hk : (pre.foldl execStep initExec).killed = false := by
      rw [h2]; rfl
    have ho : (pre.foldl execStep initExec).outcome = ExecOutcome.pending := by
      rw [h1]; rfl
    have hstep : (execStep (pre.foldl execStep initExec) (.closed none)).outcome =
        ExecOutcome.resolved
          { exitCode := 0,
            stdout := (pre.foldl execStep initExec).stdoutBuf,
            stderr := (pre.foldl execStep initExec).stderrBuf } := by
      simp [execStep, hk, ho, settleFirst]
    exact ⟨_, hstep, rfl⟩

/-- Witness for C9: data then a null-code close resolves with exit code
0, identically to a close with code 0. -/
theorem exec_null_exit_witness :
    runExec [ExecEvent.stderrData (str "warn"), ExecEvent.closed none] =
      runExec [ExecEvent.stderrData (str "warn"), ExecEvent.closed (some 0)] ∧
    ∃ r, (runExec [ExecEvent.stderrData (str "warn"),
        ExecEvent.closed none]).outcome = ExecOutcome.resolved r ∧
      r.exitCode = 0 :=
  exec_null_exit [ExecEvent.stderrData (str "warn")] (by decide)

/-- C4 counterexample — the partial-line buffer survives `stop()` and
`start()` on the same `LogcatStream` instance: a session that buffered the
dangling fragment `"abc"`, stopped and restarted, begins the new session
with buffer `"abc"` (not empty), and the first complete line processed
after the next chunk `"def\n"` is `"abcdef"` — the old fragment prefixes
it.  This refutes "after stop() followed by start() the new session
begins with an empty partial-line buffer". -/
theorem stream_restart_counterexample :
    (LogcatStream.feed
        { running := true, buffer := [], minLevel := .V, tags := [] }
        (str "abc")).1 =
      { running := true, buffer := str "abc", minLevel := .V, tags := [] } ∧
    LogcatStream.start (LogcatStream.stop
        { running := true, buffer := str "abc", minLevel := .V, tags := [] }) =
      .ok { running := true, buffer := str "abc", minLevel := .V, tags := [] } ∧
    str "abc" ≠ [] ∧
    completeLines (str "abc") (str "def\n") = [str "abcdef"] ∧
    (str "abc") <+: (str "abcdef") := by
  refine ⟨by decide, by rfl, by decide, by decide, by decide⟩

/-- C4 amended — `stop()` leaves the partial-line buffer untouched, and a
successful `start()` on the same instance carries it over, so a dangling
fragment prefixes the first line of the next session of that instance
(`completeLines` on a fragment-loaded buffer prepends the fragment to the
first line of the incoming data); session isolation holds only because a
fresh `LogcatStream` (as the service layer constructs per session) starts
with an empty buffer. -/
theorem stream_restart_amended (s : LogcatStream) :
    (LogcatStream.stop s).buffer = s.buffer ∧
    (∀ s', LogcatStream.start s = .ok s' → s'.buffer = s.buffer) ∧
    (∀ ml tg, (LogcatStream.create ml tg).buffer = []) ∧
    (∀ buf data, '\n' ∉ buf →
      completeLines buf data =
        (List.modifyHead (fun t => buf ++ t) (splitNl data)).dropLast) := by
  refine ⟨?_, ?_, fun ml tg => rfl, ?_⟩
  · unfold LogcatStream.stop
    split <;> rfl
  · intro s' h
    unfold LogcatStream.start at h
    split at h
    · cases h
    · simp only [Except.ok.injEq] at h
      rw [← h]
  · intro buf data hnl
    unfold completeLines
    rw [splitNl_append_of_no_nl hnl]

/-- Witness for C4's amended theorem: a stopped stream keeps its buffer,
a restarted one starts with the old buffer, a fresh instance starts
empty, and the fragment "abc" prefixes the first line of the next
chunk. -/
theorem stream_restart_amended_witness :
    (LogcatStream.stop
        { running := true, buffer := str "abc", minLevel := .V, tags := [] }).buffer =
      str "abc" ∧
    ({ running := true, buffer := str "abc", minLevel := .V, tags := [] } :
        LogcatStream).buffer =
      ({ running := false, buffer := str "abc", minLevel := .V, tags := [] } :
        LogcatStream).buffer ∧
    (LogcatStream.create none none).buffer = [] ∧
    completeLines (str "abc") (str "def\nx") =
      (List.modifyHead (fun t => str "abc" ++ t) (splitNl (str "def\nx"))).dropLast :=
  ⟨(stream_restart_amended _).1,
   (stream_restart_amended
      { running := false, buffer := str "abc", minLevel := .V, tags := [] }).2.1
     { running := true, buffer := str "abc", minLevel := .V, tags := [] }
     (by rfl),
   (stream_restart_amended
      { running := false, buffer := [], minLevel := .V, tags := [] }).2.2.1 none none,
   (stream_restart_amended
      { running := false, buffer := [], minLevel := .V, tags := [] }).2.2.2
     (str "abc") (str "def\nx") (by decide)⟩

end AndroidDevkit
